import Mathlib

set_option linter.unusedVariables false

/-!
Verification development for the markdown-to-audio pipeline
(src/main.rs, src/audio.rs, src/audio_merger.rs).

The program is embedded shallowly: filesystem paths become a record of
directory components, base name and extension; the filesystem becomes an
association list from paths to file contents; the external collaborators
(transcript provider, narration provider, ffmpeg concatenation) become
function parameters; each stage function of main.rs becomes a structural
recursion over the document list that threads the filesystem and records
a per-document completion event, returning an error exactly where the
Rust code propagates one with the question-mark operator.
-/

/-- Model of a filesystem path: directory components, file-name base (stem)
    and extension.  Mirrors the PathBuf operations the program uses
    (file_stem, with_extension, with_file_name, join). -/
structure FPath where
  dir : List String
  base : String
  ext : String
  deriving DecidableEq, Repr

/-- `PathBuf::with_extension`: replace the extension, keep directory and stem. -/
def FPath.withExtension (p : FPath) (e : String) : FPath :=
  { p with ext := e }

/-- `PathBuf::with_file_name`: replace the whole file name (base and
    extension), keep the directory. -/
def FPath.withFileName (p : FPath) (b e : String) : FPath :=
  { p with base := b, ext := e }

/-- `Path::file_stem().and_then(|s| s.to_str())`: the stem of the file name,
    absent when there is no usable stem. -/
def FPath.fileStem (p : FPath) : Option String :=
  if p.base = "" then none else some p.base

/-- `Path::join` of a directory with a file name given as base and extension. -/
def pathJoin (d : List String) (b e : String) : FPath :=
  ⟨d, b, e⟩

/-- Rendering of a path, used only for the ffmpeg list-file contents. -/
def FPath.render (p : FPath) : String :=
  String.intercalate "/" p.dir ++ "/" ++ p.base ++ "." ++ p.ext

/-- The filesystem: an association list from paths to file contents, the
    first binding for a path being the current one. -/
abbrev FS := List (FPath × String)

/-- Read a file (`std::fs::read_to_string`); `none` when the path is absent. -/
def fsRead : FS → FPath → Option String
  | [], _ => none
  | (q, c) :: rest, p => if q = p then some c else fsRead rest p

/-- `Path::exists`. -/
def fsExists (fs : FS) (p : FPath) : Bool :=
  (fsRead fs p).isSome

/-- Write a file (`std::fs::write` / `File::create` + `write_all`),
    overwriting any previous binding. -/
def fsWrite (fs : FS) (p : FPath) (c : String) : FS :=
  (p, c) :: fs

/-- Remove a file (`std::fs::remove_file`). -/
def fsRemove : FS → FPath → FS
  | [], _ => []
  | (q, c) :: rest, p => if q = p then fsRemove rest p else (q, c) :: fsRemove rest p

theorem fsRead_write_self (fs : FS) (p : FPath) (c : String) :
    fsRead (fsWrite fs p c) p = some c := by
  simp [fsWrite, fsRead]

theorem fsRead_write_ne (fs : FS) (p q : FPath) (c : String) (h : q ≠ p) :
    fsRead (fsWrite fs p c) q = fsRead fs q := by
  simp [fsWrite, fsRead, if_neg (Ne.symm h)]

theorem fsRead_remove_self (fs : FS) (p : FPath) :
    fsRead (fsRemove fs p) p = none := by
  induction fs with
  | nil => rfl
  | cons e rest ih =>
    obtain ⟨q, c⟩ := e
    by_cases h : q = p
    · simp [fsRemove, h, ih]
    · simp [fsRemove, h, fsRead, ih]

theorem fsRead_remove_ne (fs : FS) (p q : FPath) (h : q ≠ p) :
    fsRead (fsRemove fs p) q = fsRead fs q := by
  induction fs with
  | nil => rfl
  | cons e rest ih =>
    obtain ⟨r, c⟩ := e
    by_cases hr : r = p
    · subst hr
      simp [fsRemove, fsRead, if_neg (Ne.symm h), ih]
    · by_cases hq : r = q
      · subst hq
        simp [fsRemove, hr, fsRead]
      · simp [fsRemove, hr, fsRead, hq, ih]

theorem fsExists_write_self (fs : FS) (p : FPath) (c : String) :
    fsExists (fsWrite fs p c) p = true := by
  simp [fsExists, fsRead_write_self]

theorem fsExists_write_of (fs : FS) (p q : FPath) (c : String)
    (h : fsExists fs q = true) : fsExists (fsWrite fs p c) q = true := by
  by_cases hq : q = p
  · subst hq; simp [fsExists, fsRead_write_self]
  · simpa [fsExists, fsRead_write_ne fs p q c hq] using h

theorem fsExists_remove_of (fs : FS) (p q : FPath) (h : q ≠ p)
    (he : fsExists fs q = true) : fsExists (fsRemove fs p) q = true := by
  simpa [fsExists, fsRead_remove_ne fs p q h] using he

/-! ### Content truncation policy (src/main.rs, generate_conversations) -/

/-- UTF-8 encoded size of one character, as `String::len` counts it. -/
def csize (c : Char) : Nat :=
  if c.toNat < 0x80 then 1
  else if c.toNat < 0x800 then 2
  else if c.toNat < 0x10000 then 3
  else 4

/-- `String::len` of Rust: the UTF-8 byte length of the text. -/
def utf8Len (s : String) : Nat :=
  s.data.foldl (fun n c => n + csize c) 0

/-- The condition under which `generate_conversations` prints the truncation
    warning: `content.len() > 4000` (a byte-length test). -/
def truncateWarns (s : String) : Bool :=
  utf8Len s > 4000

/-- The truncation applied to document text before it is sent to the
    transcript provider: when `content.len() > 4000` (bytes), keep
    `content.chars().take(4000)` (Unicode scalar values). -/
def truncateContent (s : String) : String :=
  if utf8Len s > 4000 then ⟨s.data.take 4000⟩ else s

/-- The truncation policy as the specification words it: a test and a cut
    both counted in Unicode scalar characters. -/
def truncateContentSpec (s : String) : String :=
  if s.length > 4000 then ⟨s.data.take 4000⟩ else s

theorem csize_pos (c : Char) : 1 ≤ csize c := by
  unfold csize
  split
  · exact Nat.le_refl 1
  · split
    · omega
    · split
      · omega
      · omega

theorem foldl_csize_ge (l : List Char) (a : Nat) :
    a + l.length ≤ l.foldl (fun n c => n + csize c) a := by
  induction l generalizing a with
  | nil => simp
  | cons c rest ih =>
    have h1 := csize_pos c
    have h2 := ih (a + csize c)
    simp only [List.foldl_cons, List.length_cons]
    omega

theorem length_le_utf8Len (s : String) : s.length ≤ utf8Len s := by
  have h := foldl_csize_ge s.data 0
  rw [Nat.zero_add] at h
  exact h

/-- The byte-counted test and the character-counted test select the same
    transformation: the two truncation functions agree on every text. -/
theorem truncateContent_eq_spec (s : String) :
    truncateContent s = truncateContentSpec s := by
  unfold truncateContent truncateContentSpec
  by_cases hc : s.length > 4000
  · have hb : utf8Len s > 4000 := lt_of_lt_of_le hc (length_le_utf8Len s)
    rw [if_pos hb, if_pos hc]
  · by_cases hb : utf8Len s > 4000
    · have htake : s.data.take 4000 = s.data := by
        apply List.take_of_length_le
        have : s.data.length = s.length := rfl
        omega
      rw [if_pos hb, if_neg hc, htake]
    · rw [if_neg hb, if_neg hc]

/-! ### Errors, external collaborators, and the two leaf executors -/

/-- The error taxonomy of the program, as the `anyhow` errors it produces. -/
inductive AppError where
  | invalidFileName : AppError
  | ioError : AppError
  | providerError : String → AppError
  | externalToolError : AppError
  deriving DecidableEq, Repr

/-- An HTTP response from the narration provider, as src/audio.rs observes
    it: a success flag (`status.is_success()`) and a body (audio bytes on
    success, error text otherwise). -/
structure HttpResponse where
  success : Bool
  body : String
  deriving DecidableEq, Repr

/-- The external collaborators, as deterministic functions: the transcript
    provider (src/conversation.rs), the narration provider (the TTS call of
    src/audio.rs) and ffmpeg concatenation (`some` merged bytes when the
    process exits successfully). -/
structure Providers where
  genConversation : String → Except String String
  synthesize : String → HttpResponse
  concat : String → String → Option String

/-- src/audio.rs `generate_audio`: call the narration provider; on a success
    status write the returned bytes to the output file, otherwise return a
    provider error having written nothing. -/
def generate_audio (synthesize : String → HttpResponse) (conversation : String)
    (outputFile : FPath) (fs : FS) : FS × Except AppError Unit :=
  if (synthesize conversation).success then
    (fsWrite fs outputFile (synthesize conversation).body, Except.ok ())
  else
    (fs, Except.error (AppError.providerError (synthesize conversation).body))

/-- src/audio_merger.rs `merge_audio_files`: canonicalize both inputs (this
    fails when either file is absent), write the temporary ffmpeg list file
    at the output path with extension `txt`, run ffmpeg (which writes the
    output file when it succeeds), remove the temporary file, and only then
    turn a non-zero ffmpeg exit into an error. -/
def audioMergerMerge (concat : String → String → Option String)
    (introPath contentPath outputPath : FPath) (fs : FS) : FS × Except AppError Unit :=
  match fsRead fs introPath, fsRead fs contentPath with
  | some introBytes, some contentBytes =>
    let tempList := outputPath.withExtension "txt"
    let listing := "file " ++ introPath.render ++ "\nfile " ++ contentPath.render ++ "\n"
    let fs1 := fsWrite fs tempList listing
    match concat introBytes contentBytes with
    | some merged =>
      let fs2 := fsWrite fs1 outputPath merged
      let fs3 := fsRemove fs2 tempList
      (fs3, Except.ok ())
    | none =>
      let fs2 := fsRemove fs1 tempList
      (fs2, Except.error AppError.externalToolError)
  | _, _ => (fs, Except.error AppError.ioError)

/-- src/main.rs `generate_intro`: derive the chapter number from the file
    stem, and produce the intro file name `intro_<id>.txt` next to the
    document together with the intro text the code formats. -/
def generate_intro (filePath : FPath) : Except AppError (FPath × String) :=
  match filePath.fileStem with
  | none => Except.error AppError.invalidFileName
  | some chapterNumber =>
    Except.ok (filePath.withFileName ("intro_" ++ chapterNumber) "txt",
      "Chapter " ++ chapterNumber ++ ". About NIP-" ++ chapterNumber ++ ".")

/-! ### Artifact paths -/

/-- The Transcript artifact: `file.with_extension("conversation.txt")`,
    i.e. `<doc-dir>/<id>.conversation.txt`. -/
def convPath (f : FPath) : FPath :=
  f.withExtension "conversation.txt"

/-- The ContentAudio artifact: `<dir>/<id>.mp3`. -/
def contentAudioPath (d : List String) (c : String) : FPath :=
  pathJoin d c "mp3"

/-- The IntroAudio artifact: `<dir>/intro_<id>.mp3`. -/
def introAudioPath (d : List String) (c : String) : FPath :=
  pathJoin d ("intro_" ++ c) "mp3"

/-- The MergedAudio artifact: `<dir>/chapter_<id>.mp3`. -/
def mergedAudioPath (d : List String) (c : String) : FPath :=
  pathJoin d ("chapter_" ++ c) "mp3"

/-! ### Stage passes (src/main.rs) -/

/-- The four pipeline stages. -/
inductive Stage where
  | transcript : Stage
  | narration : Stage
  | intro : Stage
  | merge : Stage
  deriving DecidableEq, Repr

/-- How one document's turn at one stage completed: skipped because the
    output artifact already exists, skipped because a required input is
    absent, or executed. -/
inductive Outcome where
  | skippedExisting : Outcome
  | skippedNoDeps : Outcome
  | done : Outcome
  deriving DecidableEq, Repr

/-- One per-document completion event of a stage pass. -/
abbrev Event := Stage × FPath × Outcome

/-- src/main.rs `generate_conversations`: for each document, skip when the
    conversation file exists; otherwise read the document, truncate, call
    the transcript provider and write its verbatim output.  Any failure
    aborts the pass with the remaining documents unprocessed. -/
def genConversations (gen : String → Except String String) (files : List FPath)
    (fs : FS) : List Event × Except AppError FS :=
  match files with
  | [] => ([], Except.ok fs)
  | file :: rest =>
    let convFilename := convPath file
    if fsExists fs convFilename then
      let r := genConversations gen rest fs
      ((Stage.transcript, file, Outcome.skippedExisting) :: r.1, r.2)
    else
      match fsRead fs file with
      | none => ([], Except.error AppError.ioError)
      | some content =>
        let content := truncateContent content
        match gen content with
        | Except.error e => ([], Except.error (AppError.providerError e))
        | Except.ok conversation =>
          let fs1 := fsWrite fs convFilename conversation
          let r := genConversations gen rest fs1
          ((Stage.transcript, file, Outcome.done) :: r.1, r.2)

/-- src/main.rs `generate_audio_from_conversations`: for each document, skip
    when the conversation file is missing or the content audio exists;
    otherwise read the conversation and synthesize audio to
    `<output-dir>/<id>.mp3`. -/
def genAudioFromConversations (synthesize : String → HttpResponse)
    (files : List FPath) (outputPath : List String) (fs : FS) :
    List Event × Except AppError FS :=
  match files with
  | [] => ([], Except.ok fs)
  | file :: rest =>
    match file.fileStem with
    | none => ([], Except.error AppError.invalidFileName)
    | some chapterNumber =>
      let convFilename := convPath file
      let audioFilename := contentAudioPath outputPath chapterNumber
      if !fsExists fs convFilename then
        let r := genAudioFromConversations synthesize rest outputPath fs
        ((Stage.narration, file, Outcome.skippedNoDeps) :: r.1, r.2)
      else if fsExists fs audioFilename then
        let r := genAudioFromConversations synthesize rest outputPath fs
        ((Stage.narration, file, Outcome.skippedExisting) :: r.1, r.2)
      else
        match fsRead fs convFilename with
        | none => ([], Except.error AppError.ioError)
        | some conversation =>
          match generate_audio synthesize conversation audioFilename fs with
          | (fs1, Except.ok ()) =>
            let r := genAudioFromConversations synthesize rest outputPath fs1
            ((Stage.narration, file, Outcome.done) :: r.1, r.2)
          | (_, Except.error e) => ([], Except.error e)

/-- src/main.rs `generate_intros`: for each document, derive the chapter
    number and the intro text, skip when `<output-dir>/intro_<id>.mp3`
    exists; otherwise write the intro text file (unconditionally) and
    synthesize the intro audio from the same text. -/
def genIntros (synthesize : String → HttpResponse) (files : List FPath)
    (outputPath : List String) (fs : FS) : List Event × Except AppError FS :=
  match files with
  | [] => ([], Except.ok fs)
  | file :: rest =>
    match file.fileStem with
    | none => ([], Except.error AppError.invalidFileName)
    | some chapterNumber =>
      match generate_intro file with
      | Except.error e => ([], Except.error e)
      | Except.ok (introFilename, introContent) =>
        let introAudioFilename := introAudioPath outputPath chapterNumber
        if fsExists fs introAudioFilename then
          let r := genIntros synthesize rest outputPath fs
          ((Stage.intro, file, Outcome.skippedExisting) :: r.1, r.2)
        else
          let fs1 := fsWrite fs introFilename introContent
          match generate_audio synthesize introContent introAudioFilename fs1 with
          | (fs2, Except.ok ()) =>
            let r := genIntros synthesize rest outputPath fs2
            ((Stage.intro, file, Outcome.done) :: r.1, r.2)
          | (_, Except.error e) => ([], Except.error e)

/-- src/main.rs `merge_audio_files` (the stage loop): for each document,
    skip when `<output-dir>/chapter_<id>.mp3` exists; skip with a warning
    when `<input-dir>/intro_<id>.mp3` or `<input-dir>/<id>.mp3` is missing;
    otherwise invoke the audio merger. -/
def mergeAudioFilesStage (concat : String → String → Option String)
    (files : List FPath) (inputPath outputPath : List String) (fs : FS) :
    List Event × Except AppError FS :=
  match files with
  | [] => ([], Except.ok fs)
  | file :: rest =>
    match file.fileStem with
    | none => ([], Except.error AppError.invalidFileName)
    | some chapterNumber =>
      let introAudio := introAudioPath inputPath chapterNumber
      let contentAudio := contentAudioPath inputPath chapterNumber
      let mergedAudio := mergedAudioPath outputPath chapterNumber
      if fsExists fs mergedAudio then
        let r := mergeAudioFilesStage concat rest inputPath outputPath fs
        ((Stage.merge, file, Outcome.skippedExisting) :: r.1, r.2)
      else if !fsExists fs introAudio || !fsExists fs contentAudio then
        let r := mergeAudioFilesStage concat rest inputPath outputPath fs
        ((Stage.merge, file, Outcome.skippedNoDeps) :: r.1, r.2)
      else
        match audioMergerMerge concat introAudio contentAudio mergedAudio fs with
        | (fs1, Except.ok ()) =>
          let r := mergeAudioFilesStage concat rest inputPath outputPath fs1
          ((Stage.merge, file, Outcome.done) :: r.1, r.2)
        | (_, Except.error e) => ([], Except.error e)

/-- src/main.rs `process_all`: the four stage passes in declared order, each
    one propagating its error immediately; the per-document events of the
    passes that ran accumulate in order. -/
def processAll (P : Providers) (files : List FPath)
    (inputPath outputPath : List String) (fs : FS) :
    List Event × Except AppError FS :=
  let s1 := genConversations P.genConversation files fs
  match s1.2 with
  | Except.error e => (s1.1, Except.error e)
  | Except.ok fs1 =>
    let s2 := genAudioFromConversations P.synthesize files outputPath fs1
    match s2.2 with
    | Except.error e => (s1.1 ++ s2.1, Except.error e)
    | Except.ok fs2 =>
      let s3 := genIntros P.synthesize files outputPath fs2
      match s3.2 with
      | Except.error e => (s1.1 ++ s2.1 ++ s3.1, Except.error e)
      | Except.ok fs3 =>
        let s4 := mergeAudioFilesStage P.concat files inputPath outputPath fs3
        (s1.1 ++ s2.1 ++ s3.1 ++ s4.1, s4.2)

/-! ### Leaf-executor claims -/

/-- C9: when the narration provider responds with a non-success HTTP status,
    `generate_audio` returns a provider error and the filesystem is exactly
    the one it was given — no file is created at the output path, because
    the file is created only after a success status is observed. -/
theorem generate_audio_error_leaves_fs_unchanged
    (synthesize : String → HttpResponse) (conversation : String)
    (outputFile : FPath) (fs : FS)
    (h : (synthesize conversation).success = false) :
    generate_audio synthesize conversation outputFile fs =
      (fs, Except.error (AppError.providerError (synthesize conversation).body)) := by
  simp [generate_audio, h]

/-- C9 witness: a concrete failing provider call. -/
theorem generate_audio_error_leaves_fs_unchanged_witness :
    ((fun _ => HttpResponse.mk false "boom") "hi").success = false ∧
    generate_audio (fun _ => HttpResponse.mk false "boom") "hi"
        ⟨["audio"], "01", "mp3"⟩ [] =
      ([], Except.error (AppError.providerError "boom")) :=
  ⟨rfl, generate_audio_error_leaves_fs_unchanged
    (fun _ => HttpResponse.mk false "boom") "hi" ⟨["audio"], "01", "mp3"⟩ [] rfl⟩

/-- C10: the audio merger creates its temporary ffmpeg list file at the
    output path with extension `txt`, and removes it before returning, both
    when ffmpeg succeeds and when it exits non-zero (the external-tool error
    is produced only after the cleanup); apart from the merged output and
    that removed temporary, the filesystem is untouched. -/
theorem audio_merger_temp_file_cleanup
    (concat : String → String → Option String)
    (introPath contentPath outputPath : FPath) (fs : FS)
    (introBytes contentBytes : String)
    (hi : fsRead fs introPath = some introBytes)
    (hc : fsRead fs contentPath = some contentBytes)
    (hext : outputPath.ext ≠ "txt") :
    (∀ merged, concat introBytes contentBytes = some merged →
      ∃ fs3, audioMergerMerge concat introPath contentPath outputPath fs =
          (fs3, Except.ok ()) ∧
        fsRead fs3 outputPath = some merged ∧
        fsRead fs3 (outputPath.withExtension "txt") = none ∧
        ∀ p, p ≠ outputPath → p ≠ outputPath.withExtension "txt" →
          fsRead fs3 p = fsRead fs p) ∧
    (concat introBytes contentBytes = none →
      ∃ fs2, audioMergerMerge concat introPath contentPath outputPath fs =
          (fs2, Except.error AppError.externalToolError) ∧
        fsRead fs2 (outputPath.withExtension "txt") = none ∧
        ∀ p, p ≠ outputPath.withExtension "txt" → fsRead fs2 p = fsRead fs p) := by
  have htne : outputPath ≠ outputPath.withExtension "txt" := by
    intro he
    apply hext
    rw [he]
    rfl
  constructor
  · intro merged hm
    have heq : audioMergerMerge concat introPath contentPath outputPath fs =
        (fsRemove (fsWrite (fsWrite fs (outputPath.withExtension "txt")
          ("file " ++ introPath.render ++ "\nfile " ++ contentPath.render ++ "\n"))
          outputPath merged) (outputPath.withExtension "txt"), Except.ok ()) := by
      simp only [audioMergerMerge, hi, hc, hm]
    refine ⟨_, heq, ?_, ?_, ?_⟩
    · rw [fsRead_remove_ne _ _ _ htne, fsRead_write_self]
    · rw [fsRead_remove_self]
    · intro p hpo hpt
      rw [fsRead_remove_ne _ _ _ hpt, fsRead_write_ne _ _ _ _ hpo,
        fsRead_write_ne _ _ _ _ hpt]
  · intro hm
    have heq : audioMergerMerge concat introPath contentPath outputPath fs =
        (fsRemove (fsWrite fs (outputPath.withExtension "txt")
          ("file " ++ introPath.render ++ "\nfile " ++ contentPath.render ++ "\n"))
          (outputPath.withExtension "txt"), Except.error AppError.externalToolError) := by
      simp only [audioMergerMerge, hi, hc, hm]
    refine ⟨_, heq, ?_, ?_⟩
    · rw [fsRead_remove_self]
    · intro p hpt
      rw [fsRead_remove_ne _ _ _ hpt, fsRead_write_ne _ _ _ _ hpt]

/-- C10 witness: a concrete successful merge, with the cleanup facts. -/
theorem audio_merger_temp_file_cleanup_witness :
    ∃ fs3, audioMergerMerge (fun a b => some (a ++ b))
        ⟨["audio"], "intro_01", "mp3"⟩ ⟨["audio"], "01", "mp3"⟩
        ⟨["audio"], "chapter_01", "mp3"⟩
        [(⟨["audio"], "intro_01", "mp3"⟩, "IA"), (⟨["audio"], "01", "mp3"⟩, "CA")] =
        (fs3, Except.ok ()) ∧
      fsRead fs3 ⟨["audio"], "chapter_01", "mp3"⟩ = some "IACA" ∧
      fsRead fs3 (FPath.withExtension ⟨["audio"], "chapter_01", "mp3"⟩ "txt") = none ∧
      ∀ p, p ≠ ⟨["audio"], "chapter_01", "mp3"⟩ →
        p ≠ FPath.withExtension ⟨["audio"], "chapter_01", "mp3"⟩ "txt" →
        fsRead fs3 p =
          fsRead [(⟨["audio"], "intro_01", "mp3"⟩, "IA"), (⟨["audio"], "01", "mp3"⟩, "CA")] p :=
  (audio_merger_temp_file_cleanup (fun a b => some (a ++ b))
    ⟨["audio"], "intro_01", "mp3"⟩ ⟨["audio"], "01", "mp3"⟩
    ⟨["audio"], "chapter_01", "mp3"⟩
    [(⟨["audio"], "intro_01", "mp3"⟩, "IA"), (⟨["audio"], "01", "mp3"⟩, "CA")]
    "IA" "CA" rfl rfl (by decide)).1 "IACA" rfl

/-! ### Intro-stage claims -/

/-- C3 counterexample: the intro text the code synthesizes for chapter `03`
    is `Chapter 03. About NIP-03.`, not the `Chapter 03. About 03.` the
    fixed template of the claim would give. -/
theorem intro_template_counterexample :
    generate_intro ⟨["docs"], "03", "md"⟩ =
      Except.ok (⟨["docs"], "intro_03", "txt"⟩, "Chapter 03. About NIP-03.") ∧
    "Chapter 03. About NIP-03." ≠ "Chapter 03. About 03." := by
  exact ⟨rfl, by decide⟩

/-- C3 amended: for a document with chapter identifier `id`, the intro stage
    synthesizes exactly the text `Chapter {id}. About NIP-{id}.`, writes it
    to the IntroText artifact `<doc-dir>/intro_<id>.txt`, and passes that
    same text to the narration provider for the IntroAudio artifact. -/
theorem intro_template_is_nip_variant
    (synthesize : String → HttpResponse) (file : FPath) (rest : List FPath)
    (outputPath : List String) (fs : FS) (c : String)
    (hstem : file.fileStem = some c)
    (hnoaudio : fsExists fs (introAudioPath outputPath c) = false)
    (hsynth : (synthesize ("Chapter " ++ c ++ ". About NIP-" ++ c ++ ".")).success = true) :
    generate_intro file = Except.ok (file.withFileName ("intro_" ++ c) "txt",
      "Chapter " ++ c ++ ". About NIP-" ++ c ++ ".") ∧
    ∃ fs2, genIntros synthesize (file :: rest) outputPath fs =
        ((Stage.intro, file, Outcome.done) :: (genIntros synthesize rest outputPath fs2).1,
         (genIntros synthesize rest outputPath fs2).2) ∧
      fsRead fs2 (file.withFileName ("intro_" ++ c) "txt") =
        some ("Chapter " ++ c ++ ". About NIP-" ++ c ++ ".") ∧
      fsRead fs2 (introAudioPath outputPath c) =
        some ((synthesize ("Chapter " ++ c ++ ". About NIP-" ++ c ++ ".")).body) := by
  have hgi : generate_intro file = Except.ok (file.withFileName ("intro_" ++ c) "txt",
      "Chapter " ++ c ++ ". About NIP-" ++ c ++ ".") := by
    unfold generate_intro
    rw [hstem]
  refine ⟨hgi, fsWrite (fsWrite fs (file.withFileName ("intro_" ++ c) "txt")
    ("Chapter " ++ c ++ ". About NIP-" ++ c ++ "."))
    (introAudioPath outputPath c)
    ((synthesize ("Chapter " ++ c ++ ". About NIP-" ++ c ++ ".")).body), ?_, ?_, ?_⟩
  · simp only [genIntros, hstem, hgi, hnoaudio, generate_audio, hsynth,
      Bool.false_eq_true, if_false, if_true]
  · have hne : file.withFileName ("intro_" ++ c) "txt" ≠ introAudioPath outputPath c := by
      intro he
      have h1 : (file.withFileName ("intro_" ++ c) "txt").ext = (introAudioPath outputPath c).ext := by
        rw [he]
      have h2 : ("txt" : String) = "mp3" := h1
      exact absurd h2 (by decide)
    rw [fsRead_write_ne _ _ _ _ hne, fsRead_write_self]
  · rw [fsRead_write_self]

/-- C3 witness: a concrete document `05.md` with no existing intro audio. -/
theorem intro_template_is_nip_variant_witness :
    FPath.fileStem ⟨["docs"], "05", "md"⟩ = some "05" ∧
    (generate_intro ⟨["docs"], "05", "md"⟩ =
      Except.ok (⟨["docs"], "intro_05", "txt"⟩, "Chapter 05. About NIP-05.") ∧
    ∃ fs2, genIntros (fun _ => HttpResponse.mk true "A") [⟨["docs"], "05", "md"⟩] ["audio"] [] =
        ((Stage.intro, ⟨["docs"], "05", "md"⟩, Outcome.done) ::
          (genIntros (fun _ => HttpResponse.mk true "A") [] ["audio"] fs2).1,
         (genIntros (fun _ => HttpResponse.mk true "A") [] ["audio"] fs2).2) ∧
      fsRead fs2 ⟨["docs"], "intro_05", "txt"⟩ = some "Chapter 05. About NIP-05." ∧
      fsRead fs2 (introAudioPath ["audio"] "05") = some "A") :=
  ⟨rfl, intro_template_is_nip_variant (fun _ => HttpResponse.mk true "A")
    ⟨["docs"], "05", "md"⟩ [] ["audio"] [] "05" rfl rfl rfl⟩

/-- C4 counterexample: a pre-existing IntroText artifact holding `OLD` is
    rewritten by the intro stage when the intro audio artifact is absent. -/
theorem intro_text_overwritten_counterexample :
    ∃ fs', (genIntros (fun _ => HttpResponse.mk true "A") [⟨["docs"], "07", "md"⟩] ["audio"]
        [(⟨["docs"], "intro_07", "txt"⟩, "OLD")]).2 = Except.ok fs' ∧
      fsRead fs' ⟨["docs"], "intro_07", "txt"⟩ = some "Chapter 07. About NIP-07." ∧
      some "Chapter 07. About NIP-07." ≠ some ("OLD" : String) := by
  refine ⟨_, rfl, rfl, by decide⟩

/-! ### Merge-stage claims -/

/-- C7 counterexample: for a document whose intro/content audio inputs are
    missing but whose merged output already exists, the merge stage reports
    the already-exists skip, not the missing-dependency skip the claim
    universally asserts for every document with a missing input. -/
theorem merge_missing_deps_report_counterexample :
    fsExists [(mergedAudioPath ["audio"] "05", "M")] (introAudioPath ["docs"] "05") = false ∧
    fsExists [(mergedAudioPath ["audio"] "05", "M")] (contentAudioPath ["docs"] "05") = false ∧
    mergeAudioFilesStage (fun a b => some (a ++ b)) [⟨["docs"], "05", "md"⟩] ["docs"] ["audio"]
        [(mergedAudioPath ["audio"] "05", "M")] =
      ([(Stage.merge, ⟨["docs"], "05", "md"⟩, Outcome.skippedExisting)],
        Except.ok [(mergedAudioPath ["audio"] "05", "M")]) ∧
    Outcome.skippedExisting ≠ Outcome.skippedNoDeps := by
  exact ⟨rfl, rfl, rfl, by decide⟩

/-- C7 amended: for a document whose IntroAudio or ContentAudio input is
    missing at the paths the merge stage checks, the stage never invokes the
    audio concatenator for that document and continues to the next document
    with the filesystem unchanged and no abort; it reports the
    missing-dependency skip when the MergedAudio artifact does not already
    exist, and the ordinary already-exists skip when it does. -/
theorem merge_missing_deps_skips_and_continues
    (concat : String → String → Option String) (file : FPath) (rest : List FPath)
    (inputPath outputPath : List String) (fs : FS) (c : String)
    (hstem : file.fileStem = some c)
    (hdeps : (!fsExists fs (introAudioPath inputPath c) ||
              !fsExists fs (contentAudioPath inputPath c)) = true) :
    mergeAudioFilesStage concat (file :: rest) inputPath outputPath fs =
      ((Stage.merge, file,
          if fsExists fs (mergedAudioPath outputPath c) then Outcome.skippedExisting
          else Outcome.skippedNoDeps) ::
        (mergeAudioFilesStage concat rest inputPath outputPath fs).1,
       (mergeAudioFilesStage concat rest inputPath outputPath fs).2) := by
  by_cases hm : fsExists fs (mergedAudioPath outputPath c) = true
  · simp only [mergeAudioFilesStage, hstem, hm, if_true]
  · have hm' : fsExists fs (mergedAudioPath outputPath c) = false := by
      revert hm
      cases fsExists fs (mergedAudioPath outputPath c) <;> simp
    simp only [mergeAudioFilesStage, hstem, hm', hdeps, Bool.false_eq_true, if_false, if_true]

/-- C7 amended-theorem witness: one document with both inputs missing and no
    merged output, followed by another document. -/
theorem merge_missing_deps_skips_and_continues_witness :
    FPath.fileStem ⟨["docs"], "05", "md"⟩ = some "05" ∧
    (!fsExists [] (introAudioPath ["docs"] "05") ||
     !fsExists [] (contentAudioPath ["docs"] "05")) = true ∧
    mergeAudioFilesStage (fun a b => some (a ++ b))
        [⟨["docs"], "05", "md"⟩, ⟨["docs"], "06", "md"⟩] ["docs"] ["audio"] [] =
      ((Stage.merge, ⟨["docs"], "05", "md"⟩,
          if fsExists [] (mergedAudioPath ["audio"] "05") then Outcome.skippedExisting
          else Outcome.skippedNoDeps) ::
        (mergeAudioFilesStage (fun a b => some (a ++ b))
          [⟨["docs"], "06", "md"⟩] ["docs"] ["audio"] []).1,
       (mergeAudioFilesStage (fun a b => some (a ++ b))
          [⟨["docs"], "06", "md"⟩] ["docs"] ["audio"] []).2) :=
  ⟨rfl, rfl, merge_missing_deps_skips_and_continues (fun a b => some (a ++ b))
    ⟨["docs"], "05", "md"⟩ [⟨["docs"], "06", "md"⟩] ["docs"] ["audio"] [] "05" rfl rfl⟩

/-- C1: with the documents directory and the output directory distinct, the
    merge stage looks for its IntroAudio and ContentAudio inputs under the
    documents directory, while the narration and intro stages write them
    under the output directory; on a filesystem holding both artifacts at
    exactly the paths those stages write, the merge stage reports a
    missing-dependency skip, never invokes the concatenator, and produces no
    merged chapter file. -/
theorem merge_stage_reads_input_dir_not_output_dir :
    let fs : FS := [(introAudioPath ["audio"] "01", "IA"), (contentAudioPath ["audio"] "01", "CA")]
    fsExists fs (introAudioPath ["audio"] "01") = true ∧
    fsExists fs (contentAudioPath ["audio"] "01") = true ∧
    mergeAudioFilesStage (fun a b => some (a ++ b)) [⟨["docs"], "01", "md"⟩] ["docs"] ["audio"] fs =
      ([(Stage.merge, ⟨["docs"], "01", "md"⟩, Outcome.skippedNoDeps)], Except.ok fs) ∧
    fsRead fs (mergedAudioPath ["audio"] "01") = none := by
  exact ⟨rfl, rfl, rfl, rfl⟩

/-- C4 amended: each stage's skip check is keyed on one artifact — the
    Transcript stage on the conversation file, the Narration stage on
    ContentAudio, the Intro stage on IntroAudio, the Merge stage on
    MergedAudio — and when that artifact exists the stage writes nothing at
    all, so those artifacts are never overwritten; but the IntroText
    artifact is not so protected: whenever IntroAudio is absent the intro
    stage rewrites the IntroText file unconditionally. -/
theorem write_once_except_intro_text
    (gen : String → Except String String) (synthesize : String → HttpResponse)
    (concat : String → String → Option String) (file : FPath)
    (inputPath outputPath : List String) (fs : FS) (c : String)
    (hstem : file.fileStem = some c) :
    (fsExists fs (convPath file) = true →
      genConversations gen [file] fs =
        ([(Stage.transcript, file, Outcome.skippedExisting)], Except.ok fs)) ∧
    (fsExists fs (contentAudioPath outputPath c) = true →
      genAudioFromConversations synthesize [file] outputPath fs =
        ([(Stage.narration, file,
            if fsExists fs (convPath file) then Outcome.skippedExisting
            else Outcome.skippedNoDeps)],
          Except.ok fs)) ∧
    (fsExists fs (introAudioPath outputPath c) = true →
      genIntros synthesize [file] outputPath fs =
        ([(Stage.intro, file, Outcome.skippedExisting)], Except.ok fs)) ∧
    (fsExists fs (mergedAudioPath outputPath c) = true →
      mergeAudioFilesStage concat [file] inputPath outputPath fs =
        ([(Stage.merge, file, Outcome.skippedExisting)], Except.ok fs)) ∧
    (fsExists fs (introAudioPath outputPath c) = false →
      (synthesize ("Chapter " ++ c ++ ". About NIP-" ++ c ++ ".")).success = true →
      (genIntros synthesize [file] outputPath fs).2 =
        Except.ok (fsWrite (fsWrite fs (file.withFileName ("intro_" ++ c) "txt")
          ("Chapter " ++ c ++ ". About NIP-" ++ c ++ "."))
          (introAudioPath outputPath c)
          ((synthesize ("Chapter " ++ c ++ ". About NIP-" ++ c ++ ".")).body))) := by
  have hgi : generate_intro file = Except.ok (file.withFileName ("intro_" ++ c) "txt",
      "Chapter " ++ c ++ ". About NIP-" ++ c ++ ".") := by
    unfold generate_intro
    rw [hstem]
  refine ⟨?_, ?_, ?_, ?_, ?_⟩
  · intro hconv
    simp only [genConversations, hconv, if_true]
  · intro haudio
    by_cases hconv : fsExists fs (convPath file) = true
    · simp only [genAudioFromConversations, hstem, hconv, haudio,
        Bool.not_true, Bool.false_eq_true, if_false, if_true]
    · have hconv' : fsExists fs (convPath file) = false := by
        revert hconv
        cases fsExists fs (convPath file) <;> simp
      simp only [genAudioFromConversations, hstem, hconv',
        Bool.not_false, if_true, Bool.false_eq_true, if_false]
  · intro hintro
    simp only [genIntros, hstem, hgi, hintro, if_true]
  · intro hmerged
    simp only [mergeAudioFilesStage, hstem, hmerged, if_true]
  · intro hintro hsynth
    simp only [genIntros, hstem, hgi, hintro, Bool.false_eq_true, if_false,
      generate_audio, hsynth, if_true]

/-- C4 amended-theorem witness: a concrete document and filesystem holding
    all four keyed artifacts. -/
theorem write_once_except_intro_text_witness :
    FPath.fileStem ⟨["docs"], "09", "md"⟩ = some "09" ∧
    (fsExists [(convPath ⟨["docs"], "09", "md"⟩, "CONV")] (convPath ⟨["docs"], "09", "md"⟩) = true →
      genConversations (fun s => Except.ok s) [⟨["docs"], "09", "md"⟩]
          [(convPath ⟨["docs"], "09", "md"⟩, "CONV")] =
        ([(Stage.transcript, ⟨["docs"], "09", "md"⟩, Outcome.skippedExisting)],
          Except.ok [(convPath ⟨["docs"], "09", "md"⟩, "CONV")])) ∧
    (fsExists [(convPath ⟨["docs"], "09", "md"⟩, "CONV")] (contentAudioPath ["audio"] "09") = true →
      genAudioFromConversations (fun _ => HttpResponse.mk true "A") [⟨["docs"], "09", "md"⟩]
          ["audio"] [(convPath ⟨["docs"], "09", "md"⟩, "CONV")] =
        ([(Stage.narration, ⟨["docs"], "09", "md"⟩,
            if fsExists [(convPath ⟨["docs"], "09", "md"⟩, "CONV")] (convPath ⟨["docs"], "09", "md"⟩)
            then Outcome.skippedExisting else Outcome.skippedNoDeps)],
          Except.ok [(convPath ⟨["docs"], "09", "md"⟩, "CONV")])) ∧
    (fsExists [(convPath ⟨["docs"], "09", "md"⟩, "CONV")] (introAudioPath ["audio"] "09") = true →
      genIntros (fun _ => HttpResponse.mk true "A") [⟨["docs"], "09", "md"⟩] ["audio"]
          [(convPath ⟨["docs"], "09", "md"⟩, "CONV")] =
        ([(Stage.intro, ⟨["docs"], "09", "md"⟩, Outcome.skippedExisting)],
          Except.ok [(convPath ⟨["docs"], "09", "md"⟩, "CONV")])) ∧
    (fsExists [(convPath ⟨["docs"], "09", "md"⟩, "CONV")] (mergedAudioPath ["audio"] "09") = true →
      mergeAudioFilesStage (fun a b => some (a ++ b)) [⟨["docs"], "09", "md"⟩] ["docs"] ["audio"]
          [(convPath ⟨["docs"], "09", "md"⟩, "CONV")] =
        ([(Stage.merge, ⟨["docs"], "09", "md"⟩, Outcome.skippedExisting)],
          Except.ok [(convPath ⟨["docs"], "09", "md"⟩, "CONV")])) ∧
    (fsExists [(convPath ⟨["docs"], "09", "md"⟩, "CONV")] (introAudioPath ["audio"] "09") = false →
      ((fun _ => HttpResponse.mk true "A") ("Chapter " ++ "09" ++ ". About NIP-" ++ "09" ++ ".")).success = true →
      (genIntros (fun _ => HttpResponse.mk true "A") [⟨["docs"], "09", "md"⟩] ["audio"]
          [(convPath ⟨["docs"], "09", "md"⟩, "CONV")]).2 =
        Except.ok (fsWrite (fsWrite [(convPath ⟨["docs"], "09", "md"⟩, "CONV")]
          (FPath.withFileName ⟨["docs"], "09", "md"⟩ ("intro_" ++ "09") "txt")
          ("Chapter " ++ "09" ++ ". About NIP-" ++ "09" ++ "."))
          (introAudioPath ["audio"] "09")
          (((fun _ => HttpResponse.mk true "A") ("Chapter " ++ "09" ++ ". About NIP-" ++ "09" ++ ".")).body))) :=
  ⟨rfl, write_once_except_intro_text (fun s => Except.ok s) (fun _ => HttpResponse.mk true "A")
    (fun a b => some (a ++ b)) ⟨["docs"], "09", "md"⟩ ["docs"] ["audio"]
    [(convPath ⟨["docs"], "09", "md"⟩, "CONV")] "09" rfl⟩

/-! ### Truncation claim -/

/-- C5: the byte-tested truncation the code applies to document text is
    extensionally the character-tested rule of the specification — text over
    4000 characters is cut to exactly its first 4000 Unicode scalar values,
    text of at most 4000 characters passes through unmodified — the warning
    condition holds whenever the text exceeds 4000 characters, and the
    truncation touches only the document text: the generated dialogue is
    written to the Transcript artifact verbatim. -/
theorem truncation_policy_char_equivalence
    (gen : String → Except String String) (file : FPath) (fs : FS)
    (content conversation : String)
    (hnoconv : fsExists fs (convPath file) = false)
    (hdoc : fsRead fs file = some content)
    (hgen : gen (truncateContent content) = Except.ok conversation) :
    (∀ s : String, truncateContent s = truncateContentSpec s) ∧
    (∀ s : String, s.length > 4000 → truncateWarns s = true) ∧
    genConversations gen [file] fs =
      ([(Stage.transcript, file, Outcome.done)],
        Except.ok (fsWrite fs (convPath file) conversation)) := by
  refine ⟨truncateContent_eq_spec, ?_, ?_⟩
  · intro s hs
    have hb : utf8Len s > 4000 := lt_of_lt_of_le hs (length_le_utf8Len s)
    simp [truncateWarns, hb]
  · simp only [genConversations, hnoconv, Bool.false_eq_true, if_false, hdoc, hgen]

/-- C5 witness: a concrete short document passed through unmodified and its
    dialogue stored verbatim. -/
theorem truncation_policy_char_equivalence_witness :
    fsExists [(⟨["docs"], "02", "md"⟩, "hello")] (convPath ⟨["docs"], "02", "md"⟩) = false ∧
    fsRead [(⟨["docs"], "02", "md"⟩, "hello")] ⟨["docs"], "02", "md"⟩ = some "hello" ∧
    (fun s => (Except.ok ("DIALOG:" ++ s) : Except String String)) (truncateContent "hello") =
      Except.ok ("DIALOG:" ++ "hello") ∧
    ((∀ s : String, truncateContent s = truncateContentSpec s) ∧
     (∀ s : String, s.length > 4000 → truncateWarns s = true) ∧
     genConversations (fun s => (Except.ok ("DIALOG:" ++ s) : Except String String)) [⟨["docs"], "02", "md"⟩]
        [(⟨["docs"], "02", "md"⟩, "hello")] =
      ([(Stage.transcript, ⟨["docs"], "02", "md"⟩, Outcome.done)],
        Except.ok (fsWrite [(⟨["docs"], "02", "md"⟩, "hello")]
          (convPath ⟨["docs"], "02", "md"⟩) ("DIALOG:" ++ "hello")))) :=
  ⟨rfl, rfl, rfl, truncation_policy_char_equivalence
    (fun s => (Except.ok ("DIALOG:" ++ s) : Except String String)) ⟨["docs"], "02", "md"⟩
    [(⟨["docs"], "02", "md"⟩, "hello")] "hello" ("DIALOG:" ++ "hello")
    rfl rfl rfl⟩

/-! ### Structural lemmas about the stage passes: every completed pass tags
    its events with its own stage and covers the document list in order, and
    a failed pass covers a proper prefix of it. -/

theorem genConversations_stage_tag (gen : String → Except String String)
    (files : List FPath) (fs : FS) :
    ∀ ev ∈ (genConversations gen files fs).1, ev.1 = Stage.transcript := by
  induction files generalizing fs with
  | nil =>
    intro ev hev
    simp [genConversations] at hev
  | cons file rest ih =>
    intro ev hev
    simp only [genConversations] at hev
    split at hev
    · simp only [List.mem_cons] at hev
      rcases hev with h | h
      · rw [h]
      · exact ih fs ev h
    · split at hev
      · simp at hev
      · split at hev
        · simp at hev
        · simp only [List.mem_cons] at hev
          rcases hev with h | h
          · rw [h]
          · exact ih _ ev h

theorem genConversations_covers (gen : String → Except String String)
    (files : List FPath) (fs : FS) (tr : List Event) (fs' : FS)
    (h : genConversations gen files fs = (tr, Except.ok fs')) :
    tr.map (fun ev => ev.2.1) = files := by
  induction files generalizing fs tr fs' with
  | nil =>
    simp only [genConversations] at h
    injection h with h1 h2
    subst h1
    rfl
  | cons file rest ih =>
    simp only [genConversations] at h
    split at h
    · injection h with h1 h2
      subst h1
      simp only [List.map_cons]
      rw [ih fs _ fs' (by rw [← h2])]
    · split at h
      · injection h with h1 h2
        exact absurd h2.symm (by simp)
      · split at h
        · injection h with h1 h2
          exact absurd h2.symm (by simp)
        · injection h with h1 h2
          subst h1
          simp only [List.map_cons]
          rw [ih _ _ fs' (by rw [← h2])]

theorem genAudio_error_prefix (synthesize : String → HttpResponse)
    (files : List FPath) (outputPath : List String) (fs : FS)
    (tr : List Event) (e : AppError)
    (h : genAudioFromConversations synthesize files outputPath fs = (tr, Except.error e)) :
    ∃ pre fdoc post, files = pre ++ fdoc :: post ∧ tr.map (fun ev => ev.2.1) = pre := by
  induction files generalizing fs tr with
  | nil =>
    simp only [genAudioFromConversations] at h
    injection h with h1 h2
    exact absurd h2.symm (by simp)
  | cons file rest ih =>
    simp only [genAudioFromConversations] at h
    split at h
    · injection h with h1 h2
      subst h1
      exact ⟨[], file, rest, rfl, rfl⟩
    · split at h
      · injection h with h1 h2
        subst h1
        obtain ⟨pre, fdoc, post, hf, hm⟩ := ih _ _ (by rw [← h2])
        exact ⟨file :: pre, fdoc, post, by simp [hf], by simp [hm]⟩
      · split at h
        · injection h with h1 h2
          subst h1
          obtain ⟨pre, fdoc, post, hf, hm⟩ := ih _ _ (by rw [← h2])
          exact ⟨file :: pre, fdoc, post, by simp [hf], by simp [hm]⟩
        · split at h
          · injection h with h1 h2
            subst h1
            exact ⟨[], file, rest, rfl, rfl⟩
          · split at h
            · injection h with h1 h2
              subst h1
              obtain ⟨pre, fdoc, post, hf, hm⟩ := ih _ _ (by rw [← h2])
              exact ⟨file :: pre, fdoc, post, by simp [hf], by simp [hm]⟩
            · injection h with h1 h2
              subst h1
              exact ⟨[], file, rest, rfl, rfl⟩

theorem genAudio_stage_tag (synthesize : String → HttpResponse)
    (files : List FPath) (outputPath : List String) (fs : FS) :
    ∀ ev ∈ (genAudioFromConversations synthesize files outputPath fs).1,
      ev.1 = Stage.narration := by
  induction files generalizing fs with
  | nil =>
    intro ev hev
    simp [genAudioFromConversations] at hev
  | cons file rest ih =>
    intro ev hev
    simp only [genAudioFromConversations] at hev
    split at hev
    · simp at hev
    · split at hev
      · simp only [List.mem_cons] at hev
        rcases hev with h | h
        · rw [h]
        · exact ih fs ev h
      · split at hev
        · simp only [List.mem_cons] at hev
          rcases hev with h | h
          · rw [h]
          · exact ih fs ev h
        · split at hev
          · simp at hev
          · split at hev
            · simp only [List.mem_cons] at hev
              rcases hev with h | h
              · rw [h]
              · exact ih _ ev h
            · simp at hev

theorem genIntros_stage_tag (synthesize : String → HttpResponse)
    (files : List FPath) (outputPath : List String) (fs : FS) :
    ∀ ev ∈ (genIntros synthesize files outputPath fs).1, ev.1 = Stage.intro := by
  induction files generalizing fs with
  | nil =>
    intro ev hev
    simp [genIntros] at hev
  | cons file rest ih =>
    intro ev hev
    simp only [genIntros] at hev
    split at hev
    · simp at hev
    · split at hev
      · simp at hev
      · split at hev
        · simp only [List.mem_cons] at hev
          rcases hev with h | h
          · rw [h]
          · exact ih fs ev h
        · split at hev
          · simp only [List.mem_cons] at hev
            rcases hev with h | h
            · rw [h]
            · exact ih _ ev h
          · simp at hev

theorem mergeStage_stage_tag (concat : String → String → Option String)
    (files : List FPath) (inputPath outputPath : List String) (fs : FS) :
    ∀ ev ∈ (mergeAudioFilesStage concat files inputPath outputPath fs).1,
      ev.1 = Stage.merge := by
  induction files generalizing fs with
  | nil =>
    intro ev hev
    simp [mergeAudioFilesStage] at hev
  | cons file rest ih =>
    intro ev hev
    simp only [mergeAudioFilesStage] at hev
    split at hev
    · simp at hev
    · split at hev
      · simp only [List.mem_cons] at hev
        rcases hev with h | h
        · rw [h]
        · exact ih fs ev h
      · split at hev
        · simp only [List.mem_cons] at hev
          rcases hev with h | h
          · rw [h]
          · exact ih fs ev h
        · split at hev
          · simp only [List.mem_cons] at hev
            rcases hev with h | h
            · rw [h]
            · exact ih _ ev h
          · simp at hev

theorem genAudio_covers (synthesize : String → HttpResponse)
    (files : List FPath) (outputPath : List String) (fs : FS)
    (tr : List Event) (fs' : FS)
    (h : genAudioFromConversations synthesize files outputPath fs = (tr, Except.ok fs')) :
    tr.map (fun ev => ev.2.1) = files := by
  induction files generalizing fs tr fs' with
  | nil =>
    simp only [genAudioFromConversations] at h
    injection h with h1 h2
    subst h1
    rfl
  | cons file rest ih =>
    simp only [genAudioFromConversations] at h
    split at h
    · injection h with h1 h2
      exact absurd h2.symm (by simp)
    · split at h
      · injection h with h1 h2
        subst h1
        simp only [List.map_cons]
        rw [ih fs _ fs' (by rw [← h2])]
      · split at h
        · injection h with h1 h2
          subst h1
          simp only [List.map_cons]
          rw [ih fs _ fs' (by rw [← h2])]
        · split at h
          · injection h with h1 h2
            exact absurd h2.symm (by simp)
          · split at h
            · injection h with h1 h2
              subst h1
              simp only [List.map_cons]
              rw [ih _ _ fs' (by rw [← h2])]
            · injection h with h1 h2
              exact absurd h2.symm (by simp)

theorem genIntros_covers (synthesize : String → HttpResponse)
    (files : List FPath) (outputPath : List String) (fs : FS)
    (tr : List Event) (fs' : FS)
    (h : genIntros synthesize files outputPath fs = (tr, Except.ok fs')) :
    tr.map (fun ev => ev.2.1) = files := by
  induction files generalizing fs tr fs' with
  | nil =>
    simp only [genIntros] at h
    injection h with h1 h2
    subst h1
    rfl
  | cons file rest ih =>
    simp only [genIntros] at h
    split at h
    · injection h with h1 h2
      exact absurd h2.symm (by simp)
    · split at h
      · injection h with h1 h2
        exact absurd h2.symm (by simp)
      · split at h
        · injection h with h1 h2
          subst h1
          simp only [List.map_cons]
          rw [ih fs _ fs' (by rw [← h2])]
        · split at h
          · injection h with h1 h2
            subst h1
            simp only [List.map_cons]
            rw [ih _ _ fs' (by rw [← h2])]
          · injection h with h1 h2
            exact absurd h2.symm (by simp)

theorem mergeStage_covers (concat : String → String → Option String)
    (files : List FPath) (inputPath outputPath : List String) (fs : FS)
    (tr : List Event) (fs' : FS)
    (h : mergeAudioFilesStage concat files inputPath outputPath fs = (tr, Except.ok fs')) :
    tr.map (fun ev => ev.2.1) = files := by
  induction files generalizing fs tr fs' with
  | nil =>
    simp only [mergeAudioFilesStage] at h
    injection h with h1 h2
    subst h1
    rfl
  | cons file rest ih =>
    simp only [mergeAudioFilesStage] at h
    split at h
    · injection h with h1 h2
      exact absurd h2.symm (by simp)
    · split at h
      · injection h with h1 h2
        subst h1
        simp only [List.map_cons]
        rw [ih fs _ fs' (by rw [← h2])]
      · split at h
        · injection h with h1 h2
          subst h1
          simp only [List.map_cons]
          rw [ih fs _ fs' (by rw [← h2])]
        · split at h
          · injection h with h1 h2
            subst h1
            simp only [List.map_cons]
            rw [ih _ _ fs' (by rw [← h2])]
          · injection h with h1 h2
            exact absurd h2.symm (by simp)

/-- C8: in Full mode the four stages run in the declared order Transcript,
    Narration, Intro, Merge: the event trace of a completed run is the
    concatenation of four segments, each consisting solely of one stage's
    events and covering the whole selected document set in order — so no
    narration work on any document precedes the end of the transcript pass,
    and likewise down the chain. -/
theorem full_mode_stage_order (P : Providers) (files : List FPath)
    (inputPath outputPath : List String) (fs : FS) (tr : List Event) (fs' : FS)
    (h : processAll P files inputPath outputPath fs = (tr, Except.ok fs')) :
    ∃ t1 t2 t3 t4, tr = t1 ++ t2 ++ t3 ++ t4 ∧
      t1.map (fun ev => ev.2.1) = files ∧ (∀ ev ∈ t1, ev.1 = Stage.transcript) ∧
      t2.map (fun ev => ev.2.1) = files ∧ (∀ ev ∈ t2, ev.1 = Stage.narration) ∧
      t3.map (fun ev => ev.2.1) = files ∧ (∀ ev ∈ t3, ev.1 = Stage.intro) ∧
      t4.map (fun ev => ev.2.1) = files ∧ (∀ ev ∈ t4, ev.1 = Stage.merge) := by
  simp only [processAll] at h
  split at h
  next e heq1 =>
    injection h with h1 h2
    exact absurd h2.symm (by simp)
  next fs1 heq1 =>
    split at h
    next e heq2 =>
      injection h with h1 h2
      exact absurd h2.symm (by simp)
    next fs2 heq2 =>
      split at h
      next e heq3 =>
        injection h with h1 h2
        exact absurd h2.symm (by simp)
      next fs3 heq3 =>
        injection h with h1 h2
        subst h1
        refine ⟨_, _, _, _, rfl,
          genConversations_covers P.genConversation files fs _ fs1 (by rw [← heq1]),
          genConversations_stage_tag P.genConversation files fs,
          genAudio_covers P.synthesize files outputPath fs1 _ fs2 (by rw [← heq2]),
          genAudio_stage_tag P.synthesize files outputPath fs1,
          genIntros_covers P.synthesize files outputPath fs2 _ fs3 (by rw [← heq3]),
          genIntros_stage_tag P.synthesize files outputPath fs2,
          mergeStage_covers P.concat files inputPath outputPath fs3 _ fs' (by rw [← h2]),
          mergeStage_stage_tag P.concat files inputPath outputPath fs3⟩

/-- C6: when the transcript pass completes but the narration pass fails at
    some document, the whole run returns that error; the documents after the
    failing one never appear in the narration trace, and no intro or merge
    event exists anywhere in the run's trace — no later document of the
    failing stage and no later stage is ever attempted. -/
theorem narration_failure_aborts_run (P : Providers) (files : List FPath)
    (inputPath outputPath : List String) (fs : FS)
    (t1 : List Event) (fs1 : FS) (t2 : List Event) (e : AppError)
    (h1 : genConversations P.genConversation files fs = (t1, Except.ok fs1))
    (h2 : genAudioFromConversations P.synthesize files outputPath fs1 = (t2, Except.error e)) :
    processAll P files inputPath outputPath fs = (t1 ++ t2, Except.error e) ∧
    (∃ pre fdoc post, files = pre ++ fdoc :: post ∧ t2.map (fun ev => ev.2.1) = pre) ∧
    (∀ ev ∈ t1 ++ t2, ev.1 ≠ Stage.intro ∧ ev.1 ≠ Stage.merge) := by
  refine ⟨?_, genAudio_error_prefix P.synthesize files outputPath fs1 t2 e h2, ?_⟩
  · simp only [processAll, h1, h2]
  · intro ev hev
    rcases List.mem_append.mp hev with hm | hm
    · have ht := genConversations_stage_tag P.genConversation files fs ev
        (by rw [h1]; exact hm)
      rw [ht]
      exact ⟨by decide, by decide⟩
    · have ht := genAudio_stage_tag P.synthesize files outputPath fs1 ev
        (by rw [h2]; exact hm)
      rw [ht]
      exact ⟨by decide, by decide⟩

/-- C8 witness: a concrete completed run over one document. -/
theorem full_mode_stage_order_witness :
    processAll ⟨fun s => Except.ok s, fun _ => HttpResponse.mk true "A", fun a b => some (a ++ b)⟩
        [⟨["docs"], "10", "md"⟩] ["docs"] ["audio"]
        [(convPath ⟨["docs"], "10", "md"⟩, "C"), (contentAudioPath ["audio"] "10", "A"),
         (introAudioPath ["audio"] "10", "I"), (mergedAudioPath ["audio"] "10", "M")] =
      ([(Stage.transcript, ⟨["docs"], "10", "md"⟩, Outcome.skippedExisting),
        (Stage.narration, ⟨["docs"], "10", "md"⟩, Outcome.skippedExisting),
        (Stage.intro, ⟨["docs"], "10", "md"⟩, Outcome.skippedExisting),
        (Stage.merge, ⟨["docs"], "10", "md"⟩, Outcome.skippedExisting)],
       Except.ok [(convPath ⟨["docs"], "10", "md"⟩, "C"), (contentAudioPath ["audio"] "10", "A"),
         (introAudioPath ["audio"] "10", "I"), (mergedAudioPath ["audio"] "10", "M")]) ∧
    (∃ t1 t2 t3 t4,
      ([(Stage.transcript, ⟨["docs"], "10", "md"⟩, Outcome.skippedExisting),
        (Stage.narration, ⟨["docs"], "10", "md"⟩, Outcome.skippedExisting),
        (Stage.intro, ⟨["docs"], "10", "md"⟩, Outcome.skippedExisting),
        (Stage.merge, ⟨["docs"], "10", "md"⟩, Outcome.skippedExisting)] : List Event) =
          t1 ++ t2 ++ t3 ++ t4 ∧
      t1.map (fun ev => ev.2.1) = [⟨["docs"], "10", "md"⟩] ∧ (∀ ev ∈ t1, ev.1 = Stage.transcript) ∧
      t2.map (fun ev => ev.2.1) = [⟨["docs"], "10", "md"⟩] ∧ (∀ ev ∈ t2, ev.1 = Stage.narration) ∧
      t3.map (fun ev => ev.2.1) = [⟨["docs"], "10", "md"⟩] ∧ (∀ ev ∈ t3, ev.1 = Stage.intro) ∧
      t4.map (fun ev => ev.2.1) = [⟨["docs"], "10", "md"⟩] ∧ (∀ ev ∈ t4, ev.1 = Stage.merge)) :=
  ⟨rfl, full_mode_stage_order
    ⟨fun s => Except.ok s, fun _ => HttpResponse.mk true "A", fun a b => some (a ++ b)⟩
    [⟨["docs"], "10", "md"⟩] ["docs"] ["audio"]
    [(convPath ⟨["docs"], "10", "md"⟩, "C"), (contentAudioPath ["audio"] "10", "A"),
     (introAudioPath ["audio"] "10", "I"), (mergedAudioPath ["audio"] "10", "M")]
    [(Stage.transcript, ⟨["docs"], "10", "md"⟩, Outcome.skippedExisting),
     (Stage.narration, ⟨["docs"], "10", "md"⟩, Outcome.skippedExisting),
     (Stage.intro, ⟨["docs"], "10", "md"⟩, Outcome.skippedExisting),
     (Stage.merge, ⟨["docs"], "10", "md"⟩, Outcome.skippedExisting)]
    [(convPath ⟨["docs"], "10", "md"⟩, "C"), (contentAudioPath ["audio"] "10", "A"),
     (introAudioPath ["audio"] "10", "I"), (mergedAudioPath ["audio"] "10", "M")]
    rfl⟩

/-- C6 witness: three documents whose conversations exist; the narration
    provider fails on the second document's conversation. -/
theorem narration_failure_aborts_run_witness :
    genConversations (Providers.mk (fun s => Except.ok s)
        (fun s => if s = "C2" then HttpResponse.mk false "boom" else HttpResponse.mk true "A")
        (fun a b => some (a ++ b))).genConversation
      [⟨["docs"], "n1", "md"⟩, ⟨["docs"], "n2", "md"⟩, ⟨["docs"], "n3", "md"⟩]
      [(convPath ⟨["docs"], "n1", "md"⟩, "C1"), (convPath ⟨["docs"], "n2", "md"⟩, "C2"),
       (convPath ⟨["docs"], "n3", "md"⟩, "C3")] =
      ([(Stage.transcript, ⟨["docs"], "n1", "md"⟩, Outcome.skippedExisting),
        (Stage.transcript, ⟨["docs"], "n2", "md"⟩, Outcome.skippedExisting),
        (Stage.transcript, ⟨["docs"], "n3", "md"⟩, Outcome.skippedExisting)],
       Except.ok [(convPath ⟨["docs"], "n1", "md"⟩, "C1"), (convPath ⟨["docs"], "n2", "md"⟩, "C2"),
         (convPath ⟨["docs"], "n3", "md"⟩, "C3")]) ∧
    (processAll (Providers.mk (fun s => Except.ok s)
        (fun s => if s = "C2" then HttpResponse.mk false "boom" else HttpResponse.mk true "A")
        (fun a b => some (a ++ b)))
      [⟨["docs"], "n1", "md"⟩, ⟨["docs"], "n2", "md"⟩, ⟨["docs"], "n3", "md"⟩]
      ["docs"] ["audio"]
      [(convPath ⟨["docs"], "n1", "md"⟩, "C1"), (convPath ⟨["docs"], "n2", "md"⟩, "C2"),
       (convPath ⟨["docs"], "n3", "md"⟩, "C3")] =
      ([(Stage.transcript, ⟨["docs"], "n1", "md"⟩, Outcome.skippedExisting),
        (Stage.transcript, ⟨["docs"], "n2", "md"⟩, Outcome.skippedExisting),
        (Stage.transcript, ⟨["docs"], "n3", "md"⟩, Outcome.skippedExisting)] ++
       [(Stage.narration, ⟨["docs"], "n1", "md"⟩, Outcome.done)],
       Except.error (AppError.providerError "boom")) ∧
    (∃ pre fdoc post,
      [⟨["docs"], "n1", "md"⟩, ⟨["docs"], "n2", "md"⟩, ⟨["docs"], "n3", "md"⟩] =
        pre ++ fdoc :: post ∧
      ([(Stage.narration, ⟨["docs"], "n1", "md"⟩, Outcome.done)] : List Event).map
        (fun ev => ev.2.1) = pre) ∧
    (∀ ev ∈ ([(Stage.transcript, ⟨["docs"], "n1", "md"⟩, Outcome.skippedExisting),
        (Stage.transcript, ⟨["docs"], "n2", "md"⟩, Outcome.skippedExisting),
        (Stage.transcript, ⟨["docs"], "n3", "md"⟩, Outcome.skippedExisting)] ++
       [(Stage.narration, ⟨["docs"], "n1", "md"⟩, Outcome.done)] : List Event),
      ev.1 ≠ Stage.intro ∧ ev.1 ≠ Stage.merge)) :=
  ⟨rfl, narration_failure_aborts_run
    (Providers.mk (fun s => Except.ok s)
      (fun s => if s = "C2" then HttpResponse.mk false "boom" else HttpResponse.mk true "A")
      (fun a b => some (a ++ b)))
    [⟨["docs"], "n1", "md"⟩, ⟨["docs"], "n2", "md"⟩, ⟨["docs"], "n3", "md"⟩]
    ["docs"] ["audio"]
    [(convPath ⟨["docs"], "n1", "md"⟩, "C1"), (convPath ⟨["docs"], "n2", "md"⟩, "C2"),
     (convPath ⟨["docs"], "n3", "md"⟩, "C3")]
    [(Stage.transcript, ⟨["docs"], "n1", "md"⟩, Outcome.skippedExisting),
     (Stage.transcript, ⟨["docs"], "n2", "md"⟩, Outcome.skippedExisting),
     (Stage.transcript, ⟨["docs"], "n3", "md"⟩, Outcome.skippedExisting)]
    [(convPath ⟨["docs"], "n1", "md"⟩, "C1"), (convPath ⟨["docs"], "n2", "md"⟩, "C2"),
     (convPath ⟨["docs"], "n3", "md"⟩, "C3")]
    [(Stage.narration, ⟨["docs"], "n1", "md"⟩, Outcome.done)]
    (AppError.providerError "boom")
    rfl rfl⟩

/-! ### Preservation, postcondition and skip lemmas for the idempotence
    argument: stage passes only add files (the merge pass removes only its
    `txt` temporaries), a completed run leaves every stage's key artifact on
    disk, and a pass whose key artifacts all exist skips everything and
    leaves the filesystem untouched. -/
theorem genConversations_mono (gen : String → Except String String)
    (files : List FPath) (fs : FS) (tr : List Event) (fs' : FS)
    (h : genConversations gen files fs = (tr, Except.ok fs'))
    (p : FPath) (hp : fsExists fs p = true) : fsExists fs' p = true := by
  induction files generalizing fs tr with
  | nil =>
    simp only [genConversations] at h
    injection h with h1 h2
    injection h2 with h3
    rw [← h3]
    exact hp
  | cons file rest ih =>
    simp only [genConversations] at h
    split at h
    · injection h with h1 h2
      exact ih fs _ (by rw [← h2]) hp
    · split at h
      · injection h with h1 h2
        exact absurd h2.symm (by simp)
      · split at h
        · injection h with h1 h2
          exact absurd h2.symm (by simp)
        · injection h with h1 h2
          exact ih _ _ (by rw [← h2]) (fsExists_write_of _ _ _ _ hp)

theorem genAudio_mono (synthesize : String → HttpResponse)
    (files : List FPath) (outputPath : List String) (fs : FS)
    (tr : List Event) (fs' : FS)
    (h : genAudioFromConversations synthesize files outputPath fs = (tr, Except.ok fs'))
    (p : FPath) (hp : fsExists fs p = true) : fsExists fs' p = true := by
  induction files generalizing fs tr with
  | nil =>
    simp only [genAudioFromConversations] at h
    injection h with h1 h2
    injection h2 with h3
    rw [← h3]
    exact hp
  | cons file rest ih =>
    simp only [genAudioFromConversations] at h
    split at h
    · injection h with h1 h2
      exact absurd h2.symm (by simp)
    · split at h
      · injection h with h1 h2
        exact ih fs _ (by rw [← h2]) hp
      · split at h
        · injection h with h1 h2
          exact ih fs _ (by rw [← h2]) hp
        · split at h
          · injection h with h1 h2
            exact absurd h2.symm (by simp)
          · split at h
            · next fs1 heq =>
              unfold generate_audio at heq
              split at heq
              · injection heq with h3 h4
                injection h with h1 h2
                refine ih _ _ (by rw [← h2]) ?_
                rw [← h3]
                exact fsExists_write_of _ _ _ _ hp
              · injection heq with h3 h4
                exact absurd h4.symm (by simp)
            · injection h with h1 h2
              exact absurd h2.symm (by simp)

theorem genIntros_mono (synthesize : String → HttpResponse)
    (files : List FPath) (outputPath : List String) (fs : FS)
    (tr : List Event) (fs' : FS)
    (h : genIntros synthesize files outputPath fs = (tr, Except.ok fs'))
    (p : FPath) (hp : fsExists fs p = true) : fsExists fs' p = true := by
  induction files generalizing fs tr with
  | nil =>
    simp only [genIntros] at h
    injection h with h1 h2
    injection h2 with h3
    rw [← h3]
    exact hp
  | cons file rest ih =>
    simp only [genIntros] at h
    split at h
    · injection h with h1 h2
      exact absurd h2.symm (by simp)
    · split at h
      · injection h with h1 h2
        exact absurd h2.symm (by simp)
      · split at h
        · injection h with h1 h2
          exact ih fs _ (by rw [← h2]) hp
        · split at h
          · next fs2 heq =>
            unfold generate_audio at heq
            split at heq
            · injection heq with h3 h4
              injection h with h1 h2
              refine ih _ _ (by rw [← h2]) ?_
              rw [← h3]
              exact fsExists_write_of _ _ _ _ (fsExists_write_of _ _ _ _ hp)
            · injection heq with h3 h4
              exact absurd h4.symm (by simp)
          · injection h with h1 h2
            exact absurd h2.symm (by simp)

theorem audioMergerMerge_exists_mono (concat : String → String → Option String)
    (i c o : FPath) (fs fs' : FS)
    (h : audioMergerMerge concat i c o fs = (fs', Except.ok ()))
    (p : FPath) (hext : p.ext ≠ "txt") (hp : fsExists fs p = true) :
    fsExists fs' p = true := by
  have hpt : p ≠ o.withExtension "txt" := by
    intro he
    apply hext
    rw [he]
    rfl
  unfold audioMergerMerge at h
  split at h
  · split at h
    · injection h with h1 h2
      rw [← h1]
      exact fsExists_remove_of _ _ _ hpt
        (fsExists_write_of _ _ _ _ (fsExists_write_of _ _ _ _ hp))
    · injection h with h1 h2
      exact absurd h2.symm (by simp)
  · injection h with h1 h2
    exact absurd h2.symm (by simp)

theorem audioMergerMerge_writes_output (concat : String → String → Option String)
    (i c o : FPath) (fs fs' : FS)
    (h : audioMergerMerge concat i c o fs = (fs', Except.ok ()))
    (hext : o.ext ≠ "txt") : fsExists fs' o = true := by
  have hpt : o ≠ o.withExtension "txt" := by
    intro he
    apply hext
    rw [he]
    rfl
  unfold audioMergerMerge at h
  split at h
  · split at h
    · injection h with h1 h2
      rw [← h1]
      exact fsExists_remove_of _ _ _ hpt (fsExists_write_self _ _ _)
    · injection h with h1 h2
      exact absurd h2.symm (by simp)
  · injection h with h1 h2
    exact absurd h2.symm (by simp)

theorem audioMergerMerge_frame (concat : String → String → Option String)
    (i c o : FPath) (fs fs' : FS)
    (h : audioMergerMerge concat i c o fs = (fs', Except.ok ()))
    (p : FPath) (hpo : p ≠ o) (hpt : p ≠ o.withExtension "txt") :
    fsRead fs' p = fsRead fs p := by
  unfold audioMergerMerge at h
  split at h
  · split at h
    · injection h with h1 h2
      rw [← h1, fsRead_remove_ne _ _ _ hpt, fsRead_write_ne _ _ _ _ hpo,
        fsRead_write_ne _ _ _ _ hpt]
    · injection h with h1 h2
      exact absurd h2.symm (by simp)
  · injection h with h1 h2
    exact absurd h2.symm (by simp)

theorem mergeStage_exists_mono (concat : String → String → Option String)
    (files : List FPath) (inputPath outputPath : List String) (fs : FS)
    (tr : List Event) (fs' : FS)
    (h : mergeAudioFilesStage concat files inputPath outputPath fs = (tr, Except.ok fs'))
    (p : FPath) (hext : p.ext ≠ "txt") (hp : fsExists fs p = true) :
    fsExists fs' p = true := by
  induction files generalizing fs tr with
  | nil =>
    simp only [mergeAudioFilesStage] at h
    injection h with h1 h2
    injection h2 with h3
    rw [← h3]
    exact hp
  | cons file rest ih =>
    simp only [mergeAudioFilesStage] at h
    split at h
    · injection h with h1 h2
      exact absurd h2.symm (by simp)
    · split at h
      · injection h with h1 h2
        exact ih fs _ (by rw [← h2]) hp
      · split at h
        · injection h with h1 h2
          exact ih fs _ (by rw [← h2]) hp
        · split at h
          · next fs1 heq =>
            injection h with h1 h2
            exact ih _ _ (by rw [← h2])
              (audioMergerMerge_exists_mono _ _ _ _ _ _ heq p hext hp)
          · injection h with h1 h2
            exact absurd h2.symm (by simp)

theorem mergeStage_frame (concat : String → String → Option String)
    (files : List FPath) (inputPath outputPath : List String) (fs : FS)
    (tr : List Event) (fs' : FS)
    (h : mergeAudioFilesStage concat files inputPath outputPath fs = (tr, Except.ok fs'))
    (p : FPath) (hdir : p.dir ≠ outputPath) : fsRead fs' p = fsRead fs p := by
  induction files generalizing fs tr with
  | nil =>
    simp only [mergeAudioFilesStage] at h
    injection h with h1 h2
    injection h2 with h3
    rw [← h3]
  | cons file rest ih =>
    simp only [mergeAudioFilesStage] at h
    split at h
    · injection h with h1 h2
      exact absurd h2.symm (by simp)
    · split at h
      · injection h with h1 h2
        exact ih fs _ (by rw [← h2])
      · split at h
        · injection h with h1 h2
          exact ih fs _ (by rw [← h2])
        · split at h
          · next fs1 heq =>
            injection h with h1 h2
            have hstep := audioMergerMerge_frame _ _ _ _ _ _ heq p
              (by intro he; apply hdir; rw [he]; rfl)
              (by intro he; apply hdir; rw [he]; rfl)
            rw [ih _ _ (by rw [← h2]), hstep]
          · injection h with h1 h2
            exact absurd h2.symm (by simp)

theorem ext_ne_txt (p : FPath) (e : String) (h : p.ext = e) (hne : e ≠ "txt") :
    p.ext ≠ "txt" := by
  rw [h]
  exact hne

theorem genConversations_post (gen : String → Except String String)
    (files : List FPath) (fs : FS) (tr : List Event) (fs' : FS)
    (h : genConversations gen files fs = (tr, Except.ok fs')) :
    ∀ f ∈ files, fsExists fs' (convPath f) = true := by
  induction files generalizing fs tr with
  | nil =>
    intro f hf
    simp at hf
  | cons file rest ih =>
    simp only [genConversations] at h
    split at h
    · next hc =>
      injection h with h1 h2
      intro f hf
      rcases List.mem_cons.mp hf with hfe | hfr
      · subst hfe
        exact genConversations_mono gen rest fs _ fs' (by rw [← h2]) _ hc
      · exact ih fs _ (by rw [← h2]) f hfr
    · split at h
      · injection h with h1 h2
        exact absurd h2.symm (by simp)
      · split at h
        · injection h with h1 h2
          exact absurd h2.symm (by simp)
        · injection h with h1 h2
          intro f hf
          rcases List.mem_cons.mp hf with hfe | hfr
          · subst hfe
            exact genConversations_mono gen rest _ _ fs' (by rw [← h2]) _
              (fsExists_write_self _ _ _)
          · exact ih _ _ (by rw [← h2]) f hfr

theorem genAudio_post (synthesize : String → HttpResponse)
    (files : List FPath) (outputPath : List String) (fs : FS)
    (tr : List Event) (fs' : FS)
    (h : genAudioFromConversations synthesize files outputPath fs = (tr, Except.ok fs'))
    (hconv : ∀ f ∈ files, fsExists fs (convPath f) = true) :
    ∀ f ∈ files, ∃ c, f.fileStem = some c ∧
      fsExists fs' (contentAudioPath outputPath c) = true := by
  induction files generalizing fs tr with
  | nil =>
    intro f hf
    simp at hf
  | cons file rest ih =>
    simp only [genAudioFromConversations] at h
    split at h
    · injection h with h1 h2
      exact absurd h2.symm (by simp)
    · next chapterNumber hstem =>
      split at h
      · next hnc =>
        exfalso
        have hcv := hconv file (List.mem_cons_self _ _)
        rw [hcv] at hnc
        simp at hnc
      · next hnc =>
        split at h
        · next hai =>
          injection h with h1 h2
          intro f hf
          rcases List.mem_cons.mp hf with hfe | hfr
          · subst hfe
            exact ⟨chapterNumber, hstem,
              genAudio_mono synthesize rest outputPath fs _ fs' (by rw [← h2]) _ hai⟩
          · exact ih fs _ (by rw [← h2])
              (fun g hg => hconv g (List.mem_cons_of_mem _ hg)) f hfr
        · next hai =>
          split at h
          · injection h with h1 h2
            exact absurd h2.symm (by simp)
          · split at h
            · next fs1 heq =>
              unfold generate_audio at heq
              split at heq
              · injection heq with h3 h4
                injection h with h1 h2
                intro f hf
                rcases List.mem_cons.mp hf with hfe | hfr
                · subst hfe
                  refine ⟨chapterNumber, hstem,
                    genAudio_mono synthesize rest outputPath _ _ fs' (by rw [← h2]) _ ?_⟩
                  rw [← h3]
                  exact fsExists_write_self _ _ _
                · refine ih _ _ (by rw [← h2]) (fun g hg => ?_) f hfr
                  rw [← h3]
                  exact fsExists_write_of _ _ _ _ (hconv g (List.mem_cons_of_mem _ hg))
              · injection heq with h3 h4
                exact absurd h4.symm (by simp)
            · injection h with h1 h2
              exact absurd h2.symm (by simp)

theorem genIntros_post (synthesize : String → HttpResponse)
    (files : List FPath) (outputPath : List String) (fs : FS)
    (tr : List Event) (fs' : FS)
    (h : genIntros synthesize files outputPath fs = (tr, Except.ok fs')) :
    ∀ f ∈ files, ∃ c, f.fileStem = some c ∧
      fsExists fs' (introAudioPath outputPath c) = true := by
  induction files generalizing fs tr with
  | nil =>
    intro f hf
    simp at hf
  | cons file rest ih =>
    simp only [genIntros] at h
    split at h
    · injection h with h1 h2
      exact absurd h2.symm (by simp)
    · next chapterNumber hstem =>
      split at h
      · injection h with h1 h2
        exact absurd h2.symm (by simp)
      · next introFilename introContent hgi =>
        split at h
        · next hai =>
          injection h with h1 h2
          intro f hf
          rcases List.mem_cons.mp hf with hfe | hfr
          · subst hfe
            exact ⟨chapterNumber, hstem,
              genIntros_mono synthesize rest outputPath fs _ fs' (by rw [← h2]) _ hai⟩
          · exact ih fs _ (by rw [← h2]) f hfr
        · next hai =>
          split at h
          · next fs2 heq =>
            unfold generate_audio at heq
            split at heq
            · injection heq with h3 h4
              injection h with h1 h2
              intro f hf
              rcases List.mem_cons.mp hf with hfe | hfr
              · subst hfe
                refine ⟨chapterNumber, hstem,
                  genIntros_mono synthesize rest outputPath _ _ fs' (by rw [← h2]) _ ?_⟩
                rw [← h3]
                exact fsExists_write_self _ _ _
              · exact ih _ _ (by rw [← h2]) f hfr
            · injection heq with h3 h4
              exact absurd h4.symm (by simp)
          · injection h with h1 h2
            exact absurd h2.symm (by simp)

theorem mergeStage_post (concat : String → String → Option String)
    (files : List FPath) (inputPath outputPath : List String) (fs : FS)
    (tr : List Event) (fs' : FS)
    (h : mergeAudioFilesStage concat files inputPath outputPath fs = (tr, Except.ok fs'))
    (hpre : ∀ f ∈ files, ∃ c, f.fileStem = some c ∧
      fsExists fs (contentAudioPath outputPath c) = true ∧
      fsExists fs (introAudioPath outputPath c) = true) :
    ∀ f ∈ files, ∃ c, f.fileStem = some c ∧
      (fsExists fs' (mergedAudioPath outputPath c) = true ∨
       (!fsExists fs' (introAudioPath inputPath c) ||
        !fsExists fs' (contentAudioPath inputPath c)) = true) := by
  induction files generalizing fs tr with
  | nil =>
    intro f hf
    simp at hf
  | cons file rest ih =>
    simp only [mergeAudioFilesStage] at h
    split at h
    · injection h with h1 h2
      exact absurd h2.symm (by simp)
    · next chapterNumber hstem =>
      split at h
      · next hm =>
        injection h with h1 h2
        intro f hf
        rcases List.mem_cons.mp hf with hfe | hfr
        · subst hfe
          exact ⟨chapterNumber, hstem, Or.inl
            (mergeStage_exists_mono concat rest inputPath outputPath fs _ fs'
              (by rw [← h2]) _ (ext_ne_txt _ "mp3" rfl (by decide)) hm)⟩
        · exact ih fs _ (by rw [← h2])
            (fun g hg => hpre g (List.mem_cons_of_mem _ hg)) f hfr
      · next hm =>
        split at h
        · next hdeps =>
          injection h with h1 h2
          intro f hf
          rcases List.mem_cons.mp hf with hfe | hfr
          · subst hfe
            refine ⟨chapterNumber, hstem, Or.inr ?_⟩
            by_cases hio : inputPath = outputPath
            · exfalso
              obtain ⟨c', hs', hca, hia⟩ := hpre f (List.mem_cons_self _ _)
              rw [hstem] at hs'
              injection hs' with hc'
              subst hc'
              rw [hio, hia, hca] at hdeps
              simp at hdeps
            · have hfr1 : fsExists fs' (introAudioPath inputPath chapterNumber) =
                  fsExists fs (introAudioPath inputPath chapterNumber) := by
                unfold fsExists
                rw [mergeStage_frame concat rest inputPath outputPath fs _ fs'
                  (by rw [← h2]) _ hio]
              have hfr2 : fsExists fs' (contentAudioPath inputPath chapterNumber) =
                  fsExists fs (contentAudioPath inputPath chapterNumber) := by
                unfold fsExists
                rw [mergeStage_frame concat rest inputPath outputPath fs _ fs'
                  (by rw [← h2]) _ hio]
              rw [hfr1, hfr2]
              exact hdeps
          · exact ih fs _ (by rw [← h2])
              (fun g hg => hpre g (List.mem_cons_of_mem _ hg)) f hfr
        · next hdeps =>
          split at h
          · next fs1 heq =>
            injection h with h1 h2
            intro f hf
            rcases List.mem_cons.mp hf with hfe | hfr
            · subst hfe
              refine ⟨chapterNumber, hstem, Or.inl ?_⟩
              have hw := audioMergerMerge_writes_output concat _ _ _ _ _ heq
                (ext_ne_txt _ "mp3" rfl (by decide))
              exact mergeStage_exists_mono concat rest inputPath outputPath _ _ fs'
                (by rw [← h2]) _ (ext_ne_txt _ "mp3" rfl (by decide)) hw
            · refine ih _ _ (by rw [← h2]) (fun g hg => ?_) f hfr
              obtain ⟨c', hs', hca, hia⟩ := hpre g (List.mem_cons_of_mem _ hg)
              exact ⟨c', hs',
                audioMergerMerge_exists_mono concat _ _ _ _ _ heq _
                  (ext_ne_txt _ "mp3" rfl (by decide)) hca,
                audioMergerMerge_exists_mono concat _ _ _ _ _ heq _
                  (ext_ne_txt _ "mp3" rfl (by decide)) hia⟩
          · injection h with h1 h2
            exact absurd h2.symm (by simp)

theorem genConversations_all_skip (gen : String → Except String String)
    (files : List FPath) (fs : FS)
    (hAll : ∀ f ∈ files, fsExists fs (convPath f) = true) :
    genConversations gen files fs =
      (files.map (fun f => (Stage.transcript, f, Outcome.skippedExisting)),
        Except.ok fs) := by
  induction files with
  | nil => rfl
  | cons file rest ih =>
    have hc := hAll file (List.mem_cons_self _ _)
    simp only [genConversations, hc, if_true, List.map_cons]
    rw [ih (fun g hg => hAll g (List.mem_cons_of_mem _ hg))]

theorem genAudio_all_skip (synthesize : String → HttpResponse)
    (files : List FPath) (outputPath : List String) (fs : FS)
    (hconv : ∀ f ∈ files, fsExists fs (convPath f) = true)
    (haudio : ∀ f ∈ files, ∃ c, f.fileStem = some c ∧
      fsExists fs (contentAudioPath outputPath c) = true) :
    genAudioFromConversations synthesize files outputPath fs =
      (files.map (fun f => (Stage.narration, f, Outcome.skippedExisting)),
        Except.ok fs) := by
  induction files with
  | nil => rfl
  | cons file rest ih =>
    obtain ⟨c, hstem, hau⟩ := haudio file (List.mem_cons_self _ _)
    have hcv := hconv file (List.mem_cons_self _ _)
    simp only [genAudioFromConversations, hstem, hcv, hau, Bool.not_true,
      Bool.false_eq_true, if_false, if_true, List.map_cons]
    rw [ih (fun g hg => hconv g (List.mem_cons_of_mem _ hg))
      (fun g hg => haudio g (List.mem_cons_of_mem _ hg))]

theorem genIntros_all_skip (synthesize : String → HttpResponse)
    (files : List FPath) (outputPath : List String) (fs : FS)
    (hintro : ∀ f ∈ files, ∃ c, f.fileStem = some c ∧
      fsExists fs (introAudioPath outputPath c) = true) :
    genIntros synthesize files outputPath fs =
      (files.map (fun f => (Stage.intro, f, Outcome.skippedExisting)),
        Except.ok fs) := by
  induction files with
  | nil => rfl
  | cons file rest ih =>
    obtain ⟨c, hstem, hia⟩ := hintro file (List.mem_cons_self _ _)
    have hgi : generate_intro file = Except.ok (file.withFileName ("intro_" ++ c) "txt",
        "Chapter " ++ c ++ ". About NIP-" ++ c ++ ".") := by
      unfold generate_intro
      rw [hstem]
    simp only [genIntros, hstem, hgi, hia, if_true, List.map_cons]
    rw [ih (fun g hg => hintro g (List.mem_cons_of_mem _ hg))]

theorem mergeStage_all_skip (concat : String → String → Option String)
    (files : List FPath) (inputPath outputPath : List String) (fs : FS)
    (hpre : ∀ f ∈ files, ∃ c, f.fileStem = some c ∧
      (fsExists fs (mergedAudioPath outputPath c) = true ∨
       (!fsExists fs (introAudioPath inputPath c) ||
        !fsExists fs (contentAudioPath inputPath c)) = true)) :
    ∃ tr, mergeAudioFilesStage concat files inputPath outputPath fs = (tr, Except.ok fs) ∧
      tr.map (fun ev => ev.2.1) = files ∧ ∀ ev ∈ tr, ev.2.2 ≠ Outcome.done := by
  induction files with
  | nil =>
    refine ⟨[], rfl, rfl, ?_⟩
    intro ev hev
    simp at hev
  | cons file rest ih =>
    obtain ⟨tr', heq', hmap', hdone'⟩ := ih (fun g hg => hpre g (List.mem_cons_of_mem _ hg))
    obtain ⟨c, hstem, hdisj⟩ := hpre file (List.mem_cons_self _ _)
    by_cases hm : fsExists fs (mergedAudioPath outputPath c) = true
    · refine ⟨(Stage.merge, file, Outcome.skippedExisting) :: tr', ?_, ?_, ?_⟩
      · simp only [mergeAudioFilesStage, hstem, hm, if_true, heq']
      · simp [hmap']
      · intro ev hev
        rcases List.mem_cons.mp hev with he | he
        · subst he
          simp
        · exact hdone' ev he
    · have hm' : fsExists fs (mergedAudioPath outputPath c) = false := by
        revert hm
        cases fsExists fs (mergedAudioPath outputPath c) <;> simp
      have hdeps : (!fsExists fs (introAudioPath inputPath c) ||
          !fsExists fs (contentAudioPath inputPath c)) = true := by
        rcases hdisj with hd | hd
        · exact absurd hd hm
        · exact hd
      refine ⟨(Stage.merge, file, Outcome.skippedNoDeps) :: tr', ?_, ?_, ?_⟩
      · simp only [mergeAudioFilesStage, hstem, hm', Bool.false_eq_true, if_false,
          hdeps, if_true, heq']
      · simp [hmap']
      · intro ev hev
        rcases List.mem_cons.mp hev with he | he
        · subst he
          simp
        · exact hdone' ev he

theorem map_event_doc (st : Stage) (oc : Outcome) (files : List FPath) :
    (files.map (fun f => (st, f, oc))).map (fun ev => ev.2.1) = files := by
  induction files with
  | nil => rfl
  | cons f rest ih => simp [ih]

/-- C2: running the full pipeline a second time on the filesystem a
    successful run produced, with the same providers and document set,
    returns exactly that filesystem (identical artifacts) and a trace in
    which every stage reports every document as skipped — no document of
    any stage is executed on the second run. -/
theorem processAll_second_run_identical_and_skipped (P : Providers)
    (files : List FPath) (inputPath outputPath : List String) (fs : FS)
    (tr1 : List Event) (fs1 : FS)
    (h : processAll P files inputPath outputPath fs = (tr1, Except.ok fs1)) :
    ∃ t1 t2 t3 t4,
      processAll P files inputPath outputPath fs1 =
        (t1 ++ t2 ++ t3 ++ t4, Except.ok fs1) ∧
      t1.map (fun ev => ev.2.1) = files ∧ t2.map (fun ev => ev.2.1) = files ∧
      t3.map (fun ev => ev.2.1) = files ∧ t4.map (fun ev => ev.2.1) = files ∧
      ∀ ev ∈ t1 ++ t2 ++ t3 ++ t4, ev.2.2 ≠ Outcome.done := by
  simp only [processAll] at h
  split at h
  next e heq1 =>
    injection h with h1 h2
    exact absurd h2.symm (by simp)
  next fsa heq1 =>
    split at h
    next e heq2 =>
      injection h with h1 h2
      exact absurd h2.symm (by simp)
    next fsb heq2 =>
      split at h
      next e heq3 =>
        injection h with h1 h2
        exact absurd h2.symm (by simp)
      next fsc heq3 =>
        injection h with h1 h2
        have g1 : genConversations P.genConversation files fs =
            ((genConversations P.genConversation files fs).1, Except.ok fsa) := by
          rw [← heq1]
        have g2 : genAudioFromConversations P.synthesize files outputPath fsa =
            ((genAudioFromConversations P.synthesize files outputPath fsa).1,
              Except.ok fsb) := by
          rw [← heq2]
        have g3 : genIntros P.synthesize files outputPath fsb =
            ((genIntros P.synthesize files outputPath fsb).1, Except.ok fsc) := by
          rw [← heq3]
        have g4 : mergeAudioFilesStage P.concat files inputPath outputPath fsc =
            ((mergeAudioFilesStage P.concat files inputPath outputPath fsc).1,
              Except.ok fs1) := by
          rw [← h2]
        have A1a := genConversations_post P.genConversation files fs _ fsa g1
        have A1b : ∀ f ∈ files, fsExists fsb (convPath f) = true := fun f hf =>
          genAudio_mono P.synthesize files outputPath fsa _ fsb g2 _ (A1a f hf)
        have A1c : ∀ f ∈ files, fsExists fsc (convPath f) = true := fun f hf =>
          genIntros_mono P.synthesize files outputPath fsb _ fsc g3 _ (A1b f hf)
        have A1d : ∀ f ∈ files, fsExists fs1 (convPath f) = true := fun f hf =>
          mergeStage_exists_mono P.concat files inputPath outputPath fsc _ fs1 g4 _
            (ext_ne_txt _ "conversation.txt" rfl (by decide)) (A1c f hf)
        have A2b := genAudio_post P.synthesize files outputPath fsa _ fsb g2 A1a
        have A2c : ∀ f ∈ files, ∃ c, f.fileStem = some c ∧
            fsExists fsc (contentAudioPath outputPath c) = true := fun f hf =>
          (A2b f hf).imp (fun c hc => ⟨hc.1,
            genIntros_mono P.synthesize files outputPath fsb _ fsc g3 _ hc.2⟩)
        have A2d : ∀ f ∈ files, ∃ c, f.fileStem = some c ∧
            fsExists fs1 (contentAudioPath outputPath c) = true := fun f hf =>
          (A2c f hf).imp (fun c hc => ⟨hc.1,
            mergeStage_exists_mono P.concat files inputPath outputPath fsc _ fs1 g4 _
              (ext_ne_txt _ "mp3" rfl (by decide)) hc.2⟩)
        have A3c := genIntros_post P.synthesize files outputPath fsb _ fsc g3
        have A3d : ∀ f ∈ files, ∃ c, f.fileStem = some c ∧
            fsExists fs1 (introAudioPath outputPath c) = true := fun f hf =>
          (A3c f hf).imp (fun c hc => ⟨hc.1,
            mergeStage_exists_mono P.concat files inputPath outputPath fsc _ fs1 g4 _
              (ext_ne_txt _ "mp3" rfl (by decide)) hc.2⟩)
        have hpre4 : ∀ f ∈ files, ∃ c, f.fileStem = some c ∧
            fsExists fsc (contentAudioPath outputPath c) = true ∧
            fsExists fsc (introAudioPath outputPath c) = true := by
          intro f hf
          obtain ⟨c, hs, hca⟩ := A2c f hf
          obtain ⟨c', hs', hia⟩ := A3c f hf
          rw [hs] at hs'
          injection hs' with hcc
          subst hcc
          exact ⟨c, hs, hca, hia⟩
        have A4 := mergeStage_post P.concat files inputPath outputPath fsc _ fs1 g4 hpre4
        have s1 := genConversations_all_skip P.genConversation files fs1 A1d
        have s2 := genAudio_all_skip P.synthesize files outputPath fs1 A1d A2d
        have s3 := genIntros_all_skip P.synthesize files outputPath fs1 A3d
        obtain ⟨tr4, s4, hmap4, hdone4⟩ :=
          mergeStage_all_skip P.concat files inputPath outputPath fs1 A4
        refine ⟨files.map (fun f => (Stage.transcript, f, Outcome.skippedExisting)),
          files.map (fun f => (Stage.narration, f, Outcome.skippedExisting)),
          files.map (fun f => (Stage.intro, f, Outcome.skippedExisting)),
          tr4, ?_, ?_, ?_, ?_, hmap4, ?_⟩
        · simp only [processAll, s1, s2, s3, s4]
        · exact map_event_doc _ _ files
        · exact map_event_doc _ _ files
        · exact map_event_doc _ _ files
        · intro ev hev
          rcases List.mem_append.mp hev with hev | hev
          · rcases List.mem_append.mp hev with hev | hev
            · rcases List.mem_append.mp hev with hev | hev
              · obtain ⟨f, hf, he⟩ := List.mem_map.mp hev
                rw [← he]
                simp
              · obtain ⟨f, hf, he⟩ := List.mem_map.mp hev
                rw [← he]
                simp
            · obtain ⟨f, hf, he⟩ := List.mem_map.mp hev
              rw [← he]
              simp
          · exact hdone4 ev hev

/-- C2 witness: a concrete full run over one document (documents directory
    equal to the output directory, so the merge stage executes too),
    followed by the second run. -/
theorem processAll_second_run_identical_and_skipped_witness :
    processAll ⟨fun s => Except.ok ("D:" ++ s), fun _ => HttpResponse.mk true "A",
        fun a b => some (a ++ b)⟩
      [⟨["data"], "01", "md"⟩] ["data"] ["data"] [(⟨["data"], "01", "md"⟩, "text")] =
      ([(Stage.transcript, ⟨["data"], "01", "md"⟩, Outcome.done),
        (Stage.narration, ⟨["data"], "01", "md"⟩, Outcome.done),
        (Stage.intro, ⟨["data"], "01", "md"⟩, Outcome.done),
        (Stage.merge, ⟨["data"], "01", "md"⟩, Outcome.done)],
       Except.ok [(⟨["data"], "chapter_01", "mp3"⟩, "AA"),
        (⟨["data"], "intro_01", "mp3"⟩, "A"),
        (⟨["data"], "intro_01", "txt"⟩, "Chapter 01. About NIP-01."),
        (⟨["data"], "01", "mp3"⟩, "A"),
        (⟨["data"], "01", "conversation.txt"⟩, "D:text"),
        (⟨["data"], "01", "md"⟩, "text")]) ∧
    (∃ t1 t2 t3 t4,
      processAll ⟨fun s => Except.ok ("D:" ++ s), fun _ => HttpResponse.mk true "A",
          fun a b => some (a ++ b)⟩
        [⟨["data"], "01", "md"⟩] ["data"] ["data"]
        [(⟨["data"], "chapter_01", "mp3"⟩, "AA"),
         (⟨["data"], "intro_01", "mp3"⟩, "A"),
         (⟨["data"], "intro_01", "txt"⟩, "Chapter 01. About NIP-01."),
         (⟨["data"], "01", "mp3"⟩, "A"),
         (⟨["data"], "01", "conversation.txt"⟩, "D:text"),
         (⟨["data"], "01", "md"⟩, "text")] =
        (t1 ++ t2 ++ t3 ++ t4, Except.ok
          [(⟨["data"], "chapter_01", "mp3"⟩, "AA"),
           (⟨["data"], "intro_01", "mp3"⟩, "A"),
           (⟨["data"], "intro_01", "txt"⟩, "Chapter 01. About NIP-01."),
           (⟨["data"], "01", "mp3"⟩, "A"),
           (⟨["data"], "01", "conversation.txt"⟩, "D:text"),
           (⟨["data"], "01", "md"⟩, "text")]) ∧
      t1.map (fun ev => ev.2.1) = [⟨["data"], "01", "md"⟩] ∧
      t2.map (fun ev => ev.2.1) = [⟨["data"], "01", "md"⟩] ∧
      t3.map (fun ev => ev.2.1) = [⟨["data"], "01", "md"⟩] ∧
      t4.map (fun ev => ev.2.1) = [⟨["data"], "01", "md"⟩] ∧
      ∀ ev ∈ t1 ++ t2 ++ t3 ++ t4, ev.2.2 ≠ Outcome.done) :=
  ⟨rfl, processAll_second_run_identical_and_skipped
    ⟨fun s => Except.ok ("D:" ++ s), fun _ => HttpResponse.mk true "A",
      fun a b => some (a ++ b)⟩
    [⟨["data"], "01", "md"⟩] ["data"] ["data"] [(⟨["data"], "01", "md"⟩, "text")]
    [(Stage.transcript, ⟨["data"], "01", "md"⟩, Outcome.done),
     (Stage.narration, ⟨["data"], "01", "md"⟩, Outcome.done),
     (Stage.intro, ⟨["data"], "01", "md"⟩, Outcome.done),
     (Stage.merge, ⟨["data"], "01", "md"⟩, Outcome.done)]
    [(⟨["data"], "chapter_01", "mp3"⟩, "AA"),
     (⟨["data"], "intro_01", "mp3"⟩, "A"),
     (⟨["data"], "intro_01", "txt"⟩, "Chapter 01. About NIP-01."),
     (⟨["data"], "01", "mp3"⟩, "A"),
     (⟨["data"], "01", "conversation.txt"⟩, "D:text"),
     (⟨["data"], "01", "md"⟩, "text")]
    rfl⟩
